import Mathlib

/-!
Verification development for the pyddsde core (fitters.py and sde.py).

The Python arrays are embedded as lists of rationals (the float arithmetic of
the source is modelled exactly over ℚ).  NaN values, which numpy produces for
the mean or standard deviation of an empty selection, are modelled as the
none value of an Option result.  Standard deviations and standard errors are
represented by their squares so that the development stays in exact
arithmetic; squaring is injective on the nonnegative values the source
computes and maps NaN to NaN, so the binned statistics keep their structure.
The external ridge-regression solver (sklearn.linear_model.ridge_regression)
and the transcendental logarithm of numpy are taken as oracle parameters.
-/

namespace Pyddsde

/-- Python slice X[:-k] of a list (for k = 0 the slice X[:-0] is empty). -/
def npTakeNeg (X : List ℚ) (k : ℕ) : List ℚ :=
  if k = 0 then [] else X.take (X.length - k)

/-- Python min of a list (0 for the empty list, on which Python raises). -/
def listMin : List ℚ → ℚ
  | [] => 0
  | a :: t => t.foldl min a

/-- Python max of a list (0 for the empty list, on which Python raises). -/
def listMax : List ℚ → ℚ
  | [] => 0
  | a :: t => t.foldl max a

/-- np.mean of an array; the mean of an empty array is NaN, modelled as none. -/
def npMean (l : List ℚ) : Option ℚ :=
  match l with
  | [] => none
  | _ => some (l.sum / l.length)

/-- Total rational mean (sum over length, 0 on the empty list). -/
def npMeanD (l : List ℚ) : ℚ := l.sum / l.length

/-- Population variance, the square of np.std. -/
def pvar (l : List ℚ) : ℚ :=
  npMeanD (l.map (fun v => (v - npMeanD l) ^ 2))

/-- Square of the standard error std(l)/sqrt(len(l)) from sde.py lines
274 and 275; for an empty selection the source produces NaN (modelled as
none), since np.std of an empty array is NaN. -/
def npEbarSq (l : List ℚ) : Option ℚ :=
  match l with
  | [] => none
  | _ => some (pvar l / l.length)

/-- The values vals[i] at the indices i with b <= X[i] < b + inc: the
selection np.where(np.logical_and(X < (b + inc), X >= b)) of sde.py line 271
applied to a parallel array. -/
def binSelect (X vals : List ℚ) (b inc : ℚ) : List ℚ :=
  ((X.zip vals).filter (fun p => decide (b ≤ p.1 ∧ p.1 < b + inc))).map Prod.snd

/-- np.linspace over exact rationals. -/
def linspace (a b : ℚ) (num : ℕ) : List ℚ :=
  (List.range num).map (fun (k : ℕ) => a + (b - a) * (k : ℚ) / ((num : ℚ) - 1))

/-- np.arange over exact rationals. -/
def arange (a b step : ℚ) : List ℚ :=
  (List.range (max 0 ⌈(b - a) / step⌉).toNat).map
    (fun (k : ℕ) => a + step * (k : ℚ))

/-- SDE._isValidRange: the range must be a (list or tuple) sequence of
length 2; none models the Python value None. -/
def isValidRange (r : Option (List ℚ)) : Bool :=
  match r with
  | none => false
  | some l => l.length == 2

/-- SDE._order_parameter from sde.py lines 195 to 224: a None or invalid
range is replaced by the empirical (min, max); with a nonzero bins count the
axis is np.linspace(r[0], r[-1], bins), otherwise np.arange(min(r),
max(r) + inc, inc). -/
def orderParameter (bins : ℕ) (X : List ℚ) (inc : ℚ) (r : Option (List ℚ)) :
    List ℚ :=
  let r1 := match r with
    | none => [listMin X, listMax X]
    | some l => l
  let r2 := if r1.length = 2 then r1 else [listMin X, listMax X]
  if bins ≠ 0 then linspace (r2.headD 0) (r2.getLastD 0) bins
  else arange (listMin r2) (listMax r2 + inc) inc

/-! ## Poly2D (fitters.py lines 9 to 49) -/

/-- A 2D polynomial: a coefficient list and a degree. -/
structure Poly2D where
  coeffs : List ℚ
  degree : ℕ
deriving DecidableEq

/-- Poly2D.__init__ (fitters.py lines 12 to 15): the constructor asserts
len(coeffs) == (degree + 1) ** 2; a failed assertion is modelled as none. -/
def poly2DMk (coeffs : List ℚ) (degree : ℕ) : Option Poly2D :=
  if coeffs.length = (degree + 1) ^ 2 then some ⟨coeffs, degree⟩ else none

/-- The exponent pairs (m, n) in the order of the double comprehension
for m in range(degree + 1) for n in range(degree + 1). -/
def mnPairs (degree : ℕ) : List (ℕ × ℕ) :=
  (List.range (degree + 1)).flatMap
    (fun m => (List.range (degree + 1)).map (fun n => (m, n)))

/-- The monomial values (x ** m) * (y ** n) at a scalar point, in
dictionary order. -/
def monomials (degree : ℕ) (x y : ℚ) : List ℚ :=
  (mnPairs degree).map (fun p => x ^ p.1 * y ^ p.2)

/-- Poly2D.__call__ on a scalar pair (fitters.py lines 17 to 27): the terms
and the coefficients have equal shape, so the product is elementwise and the
sum is the polynomial value. -/
def poly2DEvalScalar (coeffs : List ℚ) (degree : ℕ) (x y : ℚ) : ℚ :=
  (List.zipWith (fun c t => c * t) coeffs (monomials degree x y)).sum

/-- The term matrix np.array([(x ** m) * (y ** n) for m ... for n ...]) for
array arguments: one row per exponent pair, one column per sample point. -/
def poly2DTerms (degree : ℕ) (xs ys : List ℚ) : List (List ℚ) :=
  (mnPairs degree).map
    (fun p => List.zipWith (fun a b => a ^ p.1 * b ^ p.2) xs ys)

/-- The numpy product c * t of a vector of shape (D,) with a matrix of shape
(D, n).  The shapes broadcast when D = n, D = 1 or n = 1 (c is aligned with
the trailing axis, the columns); otherwise numpy raises ValueError, modelled
as none. -/
def npMulVecMat (c : List ℚ) (t : List (List ℚ)) : Option (List (List ℚ)) :=
  let D := c.length
  let n := (t.headD []).length
  if D = n ∨ D = 1 ∨ n = 1 then
    some (t.map (fun (row : List ℚ) =>
      (List.range (max D n)).map (fun j =>
        (if D = 1 then c.headD 0 else c.getD j 0) *
          (if n = 1 then row.headD 0 else row.getD j 0))))
  else none

/-- Poly2D.__call__ on array arguments (fitters.py lines 17 to 27): the
direct product self.coeffs * terms is tried first; on the ValueError of an
impossible broadcast, the fallback self.coeffs[:, None] * terms multiplies
along a new trailing axis.  The final .sum() has no axis argument and sums
every entry of the matrix. -/
def poly2DCallArr (coeffs : List ℚ) (degree : ℕ) (xs ys : List ℚ) : ℚ :=
  let t := poly2DTerms degree xs ys
  let tc := match npMulVecMat coeffs t with
    | some m => m
    | none =>
        List.zipWith (fun (c : ℚ) (row : List ℚ) => row.map (fun v => c * v))
          coeffs t
  (tc.map List.sum).sum

/-! ## PolyFitBase.fit, the STLSQ loop (fitters.py lines 68 to 109)

The external solver sklearn.linear_model.ridge_regression is an oracle: its
output for iteration it is an arbitrary list regs[it] of sub-coefficients
for the kept dictionary columns.  Quantifying over all such outputs covers
every alpha, every dictionary, every weight vector and every input data, as
the loop itself only ever reads the solver output. -/

/-- The scatter assignment coeffs[keep] = coeffs_ of fitters.py line 103:
positions with a true mask take the next solver output, positions with a
false mask keep their old value. -/
def scatterKeep : List Bool → List ℚ → List ℚ → List ℚ
  | [], _, _ => []
  | _ :: _, [], _ => []
  | true :: ks, _ :: cs, r :: rs => r :: scatterKeep ks cs rs
  | true :: ks, c :: cs, [] => c :: scatterKeep ks cs []
  | false :: ks, c :: cs, rs => c :: scatterKeep ks cs rs

/-- One body of the fit loop (fitters.py lines 101 to 105): write the solver
output into the kept positions, recompute keep as abs(coeffs) > threshold,
and zero every coefficient outside the new mask. -/
def threshStep (t : ℚ) (keep : List Bool) (coeffs reg : List ℚ) :
    List Bool × List ℚ :=
  let c1 := scatterKeep keep coeffs reg
  let k1 := c1.map (fun c => decide (t < |c|))
  (k1, List.zipWith (fun k c => if k then c else (0 : ℚ)) k1 c1)

/-- One iteration of the fit loop including the guard of fitters.py lines
97 to 99: a state is (keep, coeffs, warned); once np.sum(keep) == 0 the loop
warns and breaks, modelled by the warned flag freezing the state. -/
def stlsqIter (t : ℚ) (s : List Bool × List ℚ × Bool) (reg : List ℚ) :
    List Bool × List ℚ × Bool :=
  if s.2.2 then s
  else if s.1.count true = 0 then (s.1, s.2.1, true)
  else
    let p := threshStep t s.1 s.2.1 reg
    (p.1, p.2, false)

/-- The fit loop run over the per-iteration solver outputs. -/
def stlsqRun (t : ℚ) (s : List Bool × List ℚ × Bool)
    (regs : List (List ℚ)) : List Bool × List ℚ × Bool :=
  regs.foldl (stlsqIter t) s

/-- The initial fit state of fitters.py lines 94 and 95: zero coefficients
from _get_coeffs and an all-true keep mask, for a dictionary of n columns. -/
def stlsqStart (n : ℕ) : List Bool × List ℚ × Bool :=
  (List.replicate n true, List.replicate n (0 : ℚ), false)

/-- The state of PolyFitBase.fit after running the loop from the initial
state: the keep mask, the coefficient vector and the warned flag. -/
def fitKeepCoeffs (t : ℚ) (n : ℕ) (regs : List (List ℚ)) :
    List Bool × List ℚ × Bool :=
  stlsqRun t (stlsqStart n) regs

/-! ## PolyFitBase.model_selection and _get_bic (fitters.py lines 111 to 157) -/

/-- A fitted model as _get_bic consumes it: np.count_nonzero(p) reads the
coefficient array (through __array__), and p(x) evaluates the model on the
data array. -/
structure FitModel where
  coeffs : List ℚ
  eval : List ℚ → List ℚ

/-- PolyFitBase._get_bic (fitters.py lines 146 to 157) with the floating
point np.log taken as an oracle parameter: dof = np.count_nonzero(p),
n_samples = len(y), mse = np.mean((y - p(x)) ** 2) / np.var(y), and
bic = np.log(n_samples) * dof + n_samples * np.log(mse). -/
def getBic (log : ℚ → ℚ) (p : FitModel) (x y : List ℚ) : ℚ :=
  let dof : ℕ := (p.coeffs.filter (fun c => decide (c ≠ 0))).length
  let n : ℕ := y.length
  let mse := npMeanD (List.zipWith (fun yi pi => (yi - pi) ^ 2) y (p.eval x)) /
    pvar y
  log n * dof + n * log mse

/-- One iteration of the threshold sweep (fitters.py lines 125 to 135): the
running best is the pair (best_thresh, best_bic), best_bic starting at
np.inf (the top of WithTop ℚ), and a candidate with bic <= best_bic
overwrites the running best. -/
def selectStep (f : ℚ → ℚ) (acc : ℚ × WithTop ℚ) (th : ℚ) : ℚ × WithTop ℚ :=
  if (f th : WithTop ℚ) ≤ acc.2 then (th, (f th : WithTop ℚ)) else acc

/-- PolyFitBase.model_selection (fitters.py lines 111 to 144): sweep the
candidate thresholds in the order given, score each with f (the composite
threshold to BIC-of-its-fit map: the method sets self.threshold, fits and
scores), keep the running best starting from (0, np.inf), and finally
assign self.threshold = best_thresh.  The returned value is that final
self.threshold. -/
def modelSelection (f : ℚ → ℚ) (thresholds : List ℚ) : ℚ :=
  (thresholds.foldl (selectStep f) (0, ⊤)).1

/-! ## SDE, the 1D pipeline (sde.py lines 42 to 115 and 226 to 286) -/

/-- SDE._drift (sde.py line 69): (X[Dt:] - X[:-Dt]) / (t_int * Dt). -/
def driftArr (X : List ℚ) (t_int : ℚ) (Dt : ℕ) : List ℚ :=
  List.zipWith (fun b a => (b - a) / (t_int * Dt)) (X.drop Dt) (npTakeNeg X Dt)

/-- SDE._diffusion_from_residual (sde.py lines 80 to 93): the residual of
the finite difference about the fitted drift F, squared and divided by the
time step. -/
def diffusionFromResidual (X : List ℚ) (F : ℚ → ℚ) (t_int : ℚ) (dt : ℕ) :
    List ℚ :=
  let drift := (npTakeNeg X dt).map F
  let fd := List.zipWith (fun b a => b - a) (X.drop dt) (npTakeNeg X dt)
  (List.zipWith (fun d dr => d - dr * t_int) fd drift).map
    (fun r => r ^ 2 / t_int)

/-- The per-bin append loop of sde.py lines 270 to 277 builds each output
list by repeated .append; each of the six lists is this fold. -/
def pyAppendFold {α : Type} (f : ℚ → α) (op : List ℚ) : List α :=
  op.foldl (fun acc b => acc ++ [f b]) []

/-- The namedtuple DD of sde.py lines 279 to 286. -/
structure DD where
  diff : List ℚ
  drift : List ℚ
  avgdiff : List (Option ℚ)
  avgdrift : List (Option ℚ)
  op : List ℚ
  drift_ebar : List (Option ℚ)
  diff_ebar : List (Option ℚ)
  drift_num : List ℕ
  diff_num : List ℕ
  F : ℚ → ℚ
  G : ℚ → ℚ

/-- Modelled from the spec: PolyFit1D.tune_and_fit is called by sde.py but
is not among the sources; the spec says only that a 1D polynomial is fitted
to the pointwise data (optionally after threshold selection), so the fitting
step is an oracle from the (x, y) arrays to a callable model, applied
elementwise like np.poly1d. -/
def TuneAndFit1D : Type := List ℚ → List ℚ → (ℚ → ℚ)

/-- SDE._drift_and_diffusion (sde.py lines 226 to 286): drift, the fitted
drift model F, residual diffusion about F, the fitted diffusion model G,
and the per-bin mean, squared standard error and sample count of the raw
drift and diffusion over the order parameter axis, the data being truncated
to X[0:-max(Dt, dt)] before binning. -/
def driftAndDiffusion (tf : TuneAndFit1D) (bins : ℕ) (op_range : Option (List ℚ))
    (X : List ℚ) (t_int : ℚ) (Dt dt : ℕ) (inc : ℚ) : DD :=
  let op := orderParameter bins X inc op_range
  let drift := driftArr X t_int Dt
  let F := tf (npTakeNeg X Dt) drift
  let diff := diffusionFromResidual X F t_int dt
  let G := tf (npTakeNeg X dt) diff
  let Xt := npTakeNeg X (max Dt dt)
  ⟨diff, drift,
    pyAppendFold (fun b => npMean (binSelect Xt diff b inc)) op,
    pyAppendFold (fun b => npMean (binSelect Xt drift b inc)) op,
    op,
    pyAppendFold (fun b => npEbarSq (binSelect Xt drift b inc)) op,
    pyAppendFold (fun b => npEbarSq (binSelect Xt diff b inc)) op,
    pyAppendFold (fun b => (binSelect Xt drift b inc).length) op,
    pyAppendFold (fun b => (binSelect Xt diff b inc).length) op,
    F, G⟩

/-! ## SDE, the 2D pipeline (sde.py lines 117 to 134 and 288 to 368) -/

/-- SDE._diffusion_x_from_residual (sde.py lines 117 to 121). -/
def diffusionXFromResidual (x y : List ℚ) (A1 : ℚ → ℚ → ℚ) (t_int : ℚ)
    (dt : ℕ) : List ℚ :=
  let drift := ((npTakeNeg x dt).zip (npTakeNeg y dt)).map (fun p => A1 p.1 p.2)
  let fd := List.zipWith (fun b a => b - a) (x.drop dt) (npTakeNeg x dt)
  (List.zipWith (fun d dr => d - dr * t_int) fd drift).map
    (fun r => r ^ 2 / t_int)

/-- SDE._diffusion_y_from_residual (sde.py lines 123 to 127): its drift
parameter is named A2, the fitted y-channel drift model, and the finite
difference is taken on the y channel. -/
def diffusionYFromResidual (x y : List ℚ) (A2 : ℚ → ℚ → ℚ) (t_int : ℚ)
    (dt : ℕ) : List ℚ :=
  let drift := ((npTakeNeg x dt).zip (npTakeNeg y dt)).map (fun p => A2 p.1 p.2)
  let fd := List.zipWith (fun b a => b - a) (y.drop dt) (npTakeNeg y dt)
  (List.zipWith (fun d dr => d - dr * t_int) fd drift).map
    (fun r => r ^ 2 / t_int)

/-- Elementwise numpy arithmetic on two 1D arrays: equal lengths operate
pointwise, a length-1 operand broadcasts, anything else raises ValueError
(none). -/
def npZipB (f : ℚ → ℚ → ℚ) (a b : List ℚ) : Option (List ℚ) :=
  if a.length = b.length then some (List.zipWith f a b)
  else if b.length = 1 then some (a.map (fun v => f v (b.headD 0)))
  else if a.length = 1 then some (b.map (fun v => f (a.headD 0) v))
  else none

/-- SDE._diffusion_xy_from_residual (sde.py lines 129 to 134), kept with its
quirks: the finite differences are x[dt:] - x[:dt] and y[dt:] - y[:dt] (the
slice x[:dt], not x[:-dt]), the drift terms are subtracted without the t_int
factor, and the result is residual_x * residual_y / dt * t_int. -/
def diffusionXYFromResidual (x y : List ℚ) (A1 A2 : ℚ → ℚ → ℚ) (t_int : ℚ)
    (dt : ℕ) : Option (List ℚ) := do
  let drift_x := ((npTakeNeg x dt).zip (npTakeNeg y dt)).map (fun p => A1 p.1 p.2)
  let drift_y := ((npTakeNeg x dt).zip (npTakeNeg y dt)).map (fun p => A2 p.1 p.2)
  let fdx ← npZipB (fun b a => b - a) (x.drop dt) (x.take dt)
  let fdy ← npZipB (fun b a => b - a) (y.drop dt) (y.take dt)
  let rx ← npZipB (fun d dr => d - dr) fdx drift_x
  let ry ← npZipB (fun d dr => d - dr) fdy drift_y
  let prod ← npZipB (fun a b => a * b) rx ry
  pure (prod.map (fun v => v / dt * t_int))

/-- Modelled from the spec: PolyFit2D.tune_and_fit is called by sde.py but
is not among the sources; the spec says only that a 2D polynomial is fitted
over the joint (x, y) state, so the fitting step is an oracle from the
stacked state array and the target array to a callable model of two
arguments, as the call sites A1(x[:-dt], y[:-dt]) use it. -/
def TuneAndFit2D : Type := List (ℚ × ℚ) → List ℚ → (ℚ → ℚ → ℚ)

/-- The stacked state v = np.stack((x[:-Dt], y[:-Dt]), axis=1) of sde.py
line 321.  The NaN row filter of lines 323 to 326 is the identity here,
since exact rationals have no NaN. -/
def vddState (x y : List ℚ) (Dt : ℕ) : List (ℚ × ℚ) :=
  (npTakeNeg x Dt).zip (npTakeNeg y Dt)

/-- The model A1 = fitter.tune_and_fit(v, driftX_) of sde.py line 328. -/
def vddA1 (tf : TuneAndFit2D) (x y : List ℚ) (t_int : ℚ) (Dt : ℕ) :
    ℚ → ℚ → ℚ :=
  tf (vddState x y Dt) (driftArr x t_int Dt)

/-- The model A2 = fitter.tune_and_fit(v, driftY_) of sde.py line 329. -/
def vddA2 (tf : TuneAndFit2D) (x y : List ℚ) (t_int : ℚ) (Dt : ℕ) :
    ℚ → ℚ → ℚ :=
  tf (vddState x y Dt) (driftArr y t_int Dt)

/-- Line 331 of sde.py: diffusionX = _diffusion_x_from_residual(x, y, A1,
t_int, dt). -/
def vddDiffusionX (tf : TuneAndFit2D) (x y : List ℚ) (t_int : ℚ)
    (Dt dt : ℕ) : List ℚ :=
  diffusionXFromResidual x y (vddA1 tf x y t_int Dt) t_int dt

/-- Line 332 of sde.py: diffusionY = _diffusion_y_from_residual(x, y, A1,
t_int, dt) — the argument passed for the A2 parameter is A1, the x-channel
drift model. -/
def vddDiffusionY (tf : TuneAndFit2D) (x y : List ℚ) (t_int : ℚ)
    (Dt dt : ℕ) : List ℚ :=
  diffusionYFromResidual x y (vddA1 tf x y t_int Dt) t_int dt

/-- One cell of the 2D binning of sde.py lines 354 to 365: np.nanmean of the
values at the indices whose x lies in [bx, bx + inc_x) and whose y lies in
[bY, bY + inc_y); on NaN-free data np.nanmean agrees with np.mean, and the
nanmean of an empty selection is NaN (none), not zero. -/
def vddCell (xs ys vals : List ℚ) (bx bY inc_x inc_y : ℚ) : Option ℚ :=
  npMean ((((xs.zip ys).zip vals).filter
    (fun q => decide (bx ≤ q.1.1 ∧ q.1.1 < bx + inc_x ∧
      bY ≤ q.1.2 ∧ q.1.2 < bY + inc_y))).map Prod.snd)

/-- The result list of SDE._vector_drift_diff (sde.py line 368). -/
structure VDD where
  avgdriftX : List (List (Option ℚ))
  avgdriftY : List (List (Option ℚ))
  avgdiffX : List (List (Option ℚ))
  avgdiffY : List (List (Option ℚ))
  avgdiffXY : List (List (Option ℚ))
  avgdiffYX : List (List (Option ℚ))
  op_x : List ℚ
  op_y : List ℚ

/-- SDE._vector_drift_diff (sde.py lines 288 to 368).  The binning loops of
lines 351 to 353 iterate bin_x over op_y and bin_y over op_x (as written in
the source), and cell [n, m] holds the nanmean of the values whose x lies in
the bin at op_y[m] and whose y lies in the bin at op_x[n]; row n ranges over
op_x, column m over op_y.  The result is none when the cross-diffusion
arithmetic of _diffusion_xy_from_residual raises. -/
def vectorDriftDiff (tf : TuneAndFit2D) (bins : ℕ)
    (op_x_range op_y_range : Option (List ℚ)) (x y : List ℚ)
    (inc_x inc_y t_int : ℚ) (Dt dt : ℕ) : Option VDD := do
  let op_x := orderParameter bins x inc_x op_x_range
  let op_y := orderParameter bins y inc_y op_y_range
  let A1 := vddA1 tf x y t_int Dt
  let A2 := vddA2 tf x y t_int Dt
  let diffusionX := vddDiffusionX tf x y t_int Dt dt
  let diffusionY := vddDiffusionY tf x y t_int Dt dt
  let diffusionXY ← diffusionXYFromResidual x y A1 A2 t_int dt
  let diffusionYX ← diffusionXYFromResidual x y A1 A2 t_int dt
  let xt := npTakeNeg x (max Dt dt)
  let yt := npTakeNeg y (max Dt dt)
  let cellsOf := fun (vals : List ℚ) =>
    op_x.map (fun bin_y => op_y.map (fun bin_x =>
      vddCell xt yt vals bin_x bin_y inc_x inc_y))
  pure ⟨cellsOf (driftArr x t_int Dt), cellsOf (driftArr y t_int Dt),
    cellsOf diffusionX, cellsOf diffusionY,
    cellsOf diffusionXY, cellsOf diffusionYX, op_x, op_y⟩

/-! ## SDE.__call__ and Python argument binding (sde.py lines 370 to 397) -/

/-- The outcome of binding positional arguments to parameter names: a full
binding, a TypeError for missing required arguments (with their names), or
a TypeError for too many arguments. -/
inductive BindResult (α : Type) where
  | ok : List (String × α) → BindResult α
  | missingArgs : List String → BindResult α
  | tooMany : BindResult α
deriving DecidableEq

/-- Python positional argument binding for a method with no defaults: each
argument binds to the next parameter name in order; leftover parameters are
reported missing. -/
def bindPositional {α : Type} : List String → List α → BindResult α
  | [], [] => .ok []
  | [], _ :: _ => .tooMany
  | p :: ps, [] => .missingArgs (p :: ps)
  | p :: ps, a :: rest =>
    match bindPositional ps rest with
    | .ok l => .ok ((p, a) :: l)
    | .missingArgs ms => .missingArgs ms
    | .tooMany => .tooMany

/-- The non-self parameters of SDE._drift_and_diffusion (sde.py line 226). -/
def ddParams : List String := ["X", "t_int", "Dt", "dt", "inc"]

/-- SDE.__call__ (sde.py line 397) invokes
self._drift_and_diffusion(X, t_int, Dt, inc): four positional arguments
bound against the five required parameters of _drift_and_diffusion. -/
def sdeCallBind {α : Type} (X t_int Dt inc : α) : BindResult α :=
  bindPositional ddParams [X, t_int, Dt, inc]

/-- A concrete fitting oracle for evaluating the 2D pipeline: it returns the
constant model whose value is the first target, so the x-channel fit and the
y-channel fit are distinguishable whenever the two drift arrays differ. -/
def tfConst : TuneAndFit2D := fun _ targets => fun _ _ => targets.headD 0

/-- The loop invariant of PolyFitBase.fit: the keep mask and the coefficient
vector stay aligned, and an eliminated position holds the coefficient zero
(a position is only eliminated below a nonnegative threshold, since the
eliminated coefficient satisfies abs(c) <= threshold). -/
def StlsqInv (t : ℚ) (s : List Bool × List ℚ × Bool) : Prop :=
  s.1.length = s.2.1.length ∧
    ∀ j, s.1.get? j = some false → s.2.1.get? j = some 0 ∧ 0 ≤ t

/-- The running best of the threshold sweep once the accumulator carries the
score of its own threshold (which holds from the first candidate on, since
every real score is at most np.inf). -/
def selectPure (f : ℚ → ℚ) (acc : ℚ) (ths : List ℚ) : ℚ :=
  ths.foldl (fun a th => if f th ≤ f a then th else a) acc

/-! ## Theorems -/

/-! ### Invariants of the STLSQ loop -/

theorem scatterKeep_get?_false :
    ∀ (ks : List Bool) (cs rs : List ℚ) (j : ℕ), ks.get? j = some false →
      (scatterKeep ks cs rs).get? j = cs.get? j := by
  intro ks
  induction ks with
  | nil => intro cs rs j h; simp at h
  | cons k ks ih =>
    intro cs rs j h
    cases cs with
    | nil => simp [scatterKeep]
    | cons c cs =>
      cases k with
      | true =>
        cases j with
        | zero => simp at h
        | succ j =>
          cases rs with
          | nil => simpa [scatterKeep] using ih cs [] j (by simpa using h)
          | cons r rs => simpa [scatterKeep] using ih cs rs j (by simpa using h)
      | false =>
        cases j with
        | zero => simp [scatterKeep]
        | succ j => simpa [scatterKeep] using ih cs rs j (by simpa using h)

theorem threshStep_establishes_inv (t : ℚ) (k : List Bool) (c r : List ℚ) :
    (threshStep t k c r).1.length = (threshStep t k c r).2.length ∧
    ∀ j, (threshStep t k c r).1.get? j = some false →
      (threshStep t k c r).2.get? j = some 0 ∧ 0 ≤ t := by
  unfold threshStep
  constructor
  · simp
  · intro j hj
    rw [List.get?_map] at hj
    obtain ⟨v, hv, hdec⟩ := Option.map_eq_some'.mp hj
    have habs : |v| ≤ t := not_lt.mp (of_decide_eq_false hdec)
    refine ⟨?_, le_trans (abs_nonneg v) habs⟩
    rw [List.get?_zipWith_eq_some]
    refine ⟨false, v, ?_, hv, rfl⟩
    rw [List.get?_map, hv, Option.map_some', hdec]

theorem threshStep_false_stable (t : ℚ) (k : List Bool) (c r : List ℚ)
    (j : ℕ) (hk : k.get? j = some false) (hc : c.get? j = some 0)
    (ht : 0 ≤ t) : (threshStep t k c r).1.get? j = some false := by
  unfold threshStep
  have h1 : (scatterKeep k c r).get? j = some 0 := by
    rw [scatterKeep_get?_false k c r j hk]; exact hc
  simp only [List.get?_map, h1, Option.map_some']
  simpa using ht

theorem stlsqIter_inv (t : ℚ) (s : List Bool × List ℚ × Bool) (r : List ℚ)
    (h : StlsqInv t s) : StlsqInv t (stlsqIter t s r) := by
  unfold stlsqIter
  split
  · exact h
  · split
    · exact h
    · exact ⟨(threshStep_establishes_inv t s.1 s.2.1 r).1,
        (threshStep_establishes_inv t s.1 s.2.1 r).2⟩

theorem stlsqIter_false_stable (t : ℚ) (s : List Bool × List ℚ × Bool)
    (r : List ℚ) (j : ℕ) (h : StlsqInv t s)
    (hk : s.1.get? j = some false) :
    (stlsqIter t s r).1.get? j = some false := by
  unfold stlsqIter
  split
  · exact hk
  · split
    · exact hk
    · obtain ⟨hc, ht⟩ := h.2 j hk
      exact threshStep_false_stable t s.1 s.2.1 r j hk hc ht

theorem stlsqRun_inv (t : ℚ) (regs : List (List ℚ)) :
    ∀ s, StlsqInv t s → StlsqInv t (stlsqRun t s regs) := by
  induction regs with
  | nil => intro s h; exact h
  | cons r rs ih =>
    intro s h
    simp only [stlsqRun, List.foldl_cons]
    exact ih (stlsqIter t s r) (stlsqIter_inv t s r h)

theorem stlsqRun_false_stable (t : ℚ) (regs : List (List ℚ)) :
    ∀ s j, StlsqInv t s → s.1.get? j = some false →
      (stlsqRun t s regs).1.get? j = some false := by
  induction regs with
  | nil => intro s j _ hk; exact hk
  | cons r rs ih =>
    intro s j h hk
    simp only [stlsqRun, List.foldl_cons]
    exact ih (stlsqIter t s r) j (stlsqIter_inv t s r h)
      (stlsqIter_false_stable t s r j h hk)

theorem stlsqRun_frozen (t : ℚ) (regs : List (List ℚ)) :
    ∀ s, s.2.2 = true → stlsqRun t s regs = s := by
  induction regs with
  | nil => intro s _; rfl
  | cons r rs ih =>
    intro s h
    simp only [stlsqRun, List.foldl_cons]
    have hs : stlsqIter t s r = s := by unfold stlsqIter; simp [h]
    rw [hs]
    exact ih s h

theorem stlsqRun_cons (t : ℚ) (s : List Bool × List ℚ × Bool) (r : List ℚ)
    (rs : List (List ℚ)) :
    stlsqRun t s (r :: rs) = stlsqRun t (stlsqIter t s r) rs := rfl

theorem stlsqStart_inv (t : ℚ) (n : ℕ) : StlsqInv t (stlsqStart n) := by
  constructor
  · simp [stlsqStart]
  · intro j h
    have hm : false ∈ List.replicate n true := List.get?_mem h
    have := List.eq_of_mem_replicate hm
    simp at this

theorem fitKeepCoeffs_append (t : ℚ) (n : ℕ) (regs1 regs2 : List (List ℚ)) :
    fitKeepCoeffs t n (regs1 ++ regs2) =
      stlsqRun t (fitKeepCoeffs t n regs1) regs2 := by
  simp [fitKeepCoeffs, stlsqRun, List.foldl_append]

/-- C1: within one fit call the STLSQ keep mask is monotonically
non-increasing across iterations: a coefficient eliminated after the first
k solver iterations (regs1) stays eliminated and zero after any further
iterations (regs2), for every threshold and every sequence of solver
outputs — hence for every alpha, dictionary and input data, which enter the
loop only through the solver output. -/
theorem stlsq_mask_monotone (t : ℚ) (n : ℕ) (regs1 regs2 : List (List ℚ))
    (j : ℕ) (h : (fitKeepCoeffs t n regs1).1.get? j = some false) :
    (fitKeepCoeffs t n (regs1 ++ regs2)).1.get? j = some false ∧
    (fitKeepCoeffs t n (regs1 ++ regs2)).2.1.get? j = some 0 := by
  have hinv1 : StlsqInv t (fitKeepCoeffs t n regs1) :=
    stlsqRun_inv t regs1 (stlsqStart n) (stlsqStart_inv t n)
  rw [fitKeepCoeffs_append]
  have hk := stlsqRun_false_stable t regs2 (fitKeepCoeffs t n regs1) j hinv1 h
  have hinv2 := stlsqRun_inv t regs2 (fitKeepCoeffs t n regs1) hinv1
  exact ⟨hk, (hinv2.2 j hk).1⟩

/-- Witness for C1: with threshold 1 and one dictionary column, a solver
output 0 at the first iteration eliminates the coefficient, and it stays
eliminated and zero when a later iteration would regress it to 5. -/
theorem stlsq_mask_monotone_witness :
    (fitKeepCoeffs 1 1 [[0]]).1.get? 0 = some false ∧
    ((fitKeepCoeffs 1 1 ([[0]] ++ [[5]])).1.get? 0 = some false ∧
      (fitKeepCoeffs 1 1 ([[0]] ++ [[5]])).2.1.get? 0 = some 0) := by
  have h : (fitKeepCoeffs 1 1 [[0]]).1.get? 0 = some false := by
    norm_num [fitKeepCoeffs, stlsqRun, stlsqStart, stlsqIter, threshStep,
      scatterKeep]
  exact ⟨h, stlsq_mask_monotone 1 1 [[0]] [[5]] 0 h⟩

/-- C6: if the keep mask is empty (no true entry) with solver iterations
still remaining, the fit loop warns (the warned flag of the model, standing
for warnings.warn at fitters.py line 98), terminates early leaving the
coefficients untouched by the remaining iterations, and those coefficients
are all zero. -/
theorem stlsq_exhausted_warns (t : ℚ) (n : ℕ) (regs1 regs2 : List (List ℚ))
    (hne : regs2 ≠ [])
    (h : (fitKeepCoeffs t n regs1).1.count true = 0) :
    (fitKeepCoeffs t n (regs1 ++ regs2)).2.2 = true ∧
    (fitKeepCoeffs t n (regs1 ++ regs2)).2.1 =
      (fitKeepCoeffs t n regs1).2.1 ∧
    ∀ c ∈ (fitKeepCoeffs t n (regs1 ++ regs2)).2.1, c = 0 := by
  have hinv1 : StlsqInv t (fitKeepCoeffs t n regs1) :=
    stlsqRun_inv t regs1 (stlsqStart n) (stlsqStart_inv t n)
  have hallzero : ∀ c ∈ (fitKeepCoeffs t n regs1).2.1, c = 0 := by
    intro c hc
    obtain ⟨j, hj⟩ := List.mem_iff_get?.mp hc
    have hjlt : j < (fitKeepCoeffs t n regs1).1.length := by
      rw [hinv1.1]
      exact (List.get?_eq_some.mp hj).1
    have hb : (fitKeepCoeffs t n regs1).1.get? j =
        some ((fitKeepCoeffs t n regs1).1.get ⟨j, hjlt⟩) :=
      List.get?_eq_get hjlt
    have hmem := List.get_mem (fitKeepCoeffs t n regs1).1 j hjlt
    have hfalse : (fitKeepCoeffs t n regs1).1.get ⟨j, hjlt⟩ = false := by
      have hnot : true ∉ (fitKeepCoeffs t n regs1).1 :=
        List.count_eq_zero.mp h
      cases hv : (fitKeepCoeffs t n regs1).1.get ⟨j, hjlt⟩ with
      | false => rfl
      | true => exact absurd (hv ▸ hmem) hnot
    rw [hfalse] at hb
    have := (hinv1.2 j hb).1
    rw [hj] at this
    exact Option.some_inj.mp this
  rw [fitKeepCoeffs_append]
  obtain ⟨r, rs, rfl⟩ := List.exists_cons_of_ne_nil hne
  rw [stlsqRun_cons]
  by_cases hw : (fitKeepCoeffs t n regs1).2.2 = true
  · have hiter : stlsqIter t (fitKeepCoeffs t n regs1) r =
        fitKeepCoeffs t n regs1 := by
      unfold stlsqIter; simp [hw]
    rw [hiter, stlsqRun_frozen t rs _ hw]
    exact ⟨hw, rfl, hallzero⟩
  · have hiter : stlsqIter t (fitKeepCoeffs t n regs1) r =
        ((fitKeepCoeffs t n regs1).1, (fitKeepCoeffs t n regs1).2.1, true) := by
      unfold stlsqIter
      simp [hw, h]
    rw [hiter, stlsqRun_frozen t rs
      ((fitKeepCoeffs t n regs1).1, (fitKeepCoeffs t n regs1).2.1, true) rfl]
    exact ⟨rfl, rfl, hallzero⟩

/-- Witness for C6: with threshold 1 and two dictionary columns, solver
output [0, 0] eliminates every coefficient after one iteration; with one
iteration remaining the loop warns, freezes the coefficients and returns
the all-zero vector. -/
theorem stlsq_exhausted_warns_witness :
    [[ (9 : ℚ), 9 ]] ≠ ([] : List (List ℚ)) ∧
    (fitKeepCoeffs 1 2 [[0, 0]]).1.count true = 0 ∧
    ((fitKeepCoeffs 1 2 ([[0, 0]] ++ [[9, 9]])).2.2 = true ∧
      (fitKeepCoeffs 1 2 ([[0, 0]] ++ [[9, 9]])).2.1 =
        (fitKeepCoeffs 1 2 [[0, 0]]).2.1 ∧
      ∀ c ∈ (fitKeepCoeffs 1 2 ([[0, 0]] ++ [[9, 9]])).2.1, c = 0) := by
  have h : (fitKeepCoeffs 1 2 [[0, 0]]).1.count true = 0 := by
    norm_num [fitKeepCoeffs, stlsqRun, stlsqStart, stlsqIter, threshStep,
      scatterKeep]
  exact ⟨by simp, h, stlsq_exhausted_warns 1 2 [[0, 0]] [[9, 9]] (by simp) h⟩

/-! ### The threshold sweep of model_selection -/

theorem selectBest_eq_pure (f : ℚ → ℚ) : ∀ (ths : List ℚ) (acc : ℚ),
    ths.foldl (selectStep f) (acc, (f acc : WithTop ℚ)) =
      (selectPure f acc ths, (f (selectPure f acc ths) : WithTop ℚ)) := by
  intro ths
  induction ths with
  | nil => intro acc; rfl
  | cons th ths ih =>
    intro acc
    by_cases hle : f th ≤ f acc
    · have h1 : selectStep f (acc, (f acc : WithTop ℚ)) th =
          (th, (f th : WithTop ℚ)) := by
        unfold selectStep
        simp [WithTop.coe_le_coe, hle]
      have h2 : selectPure f acc (th :: ths) = selectPure f th ths := by
        unfold selectPure
        rw [List.foldl_cons, if_pos hle]
      rw [List.foldl_cons, h1, ih th, h2]
    · have h1 : selectStep f (acc, (f acc : WithTop ℚ)) th =
          (acc, (f acc : WithTop ℚ)) := by
        unfold selectStep
        simp [WithTop.coe_le_coe, hle]
      have h2 : selectPure f acc (th :: ths) = selectPure f acc ths := by
        unfold selectPure
        rw [List.foldl_cons, if_neg hle]
      rw [List.foldl_cons, h1, ih acc, h2]

theorem selectPure_lastMin (f : ℚ → ℚ) : ∀ (ths : List ℚ) (acc : ℚ),
    ∃ l₁ l₂, acc :: ths = l₁ ++ selectPure f acc ths :: l₂ ∧
      (∀ th ∈ acc :: ths, f (selectPure f acc ths) ≤ f th) ∧
      (∀ th ∈ l₂, f (selectPure f acc ths) < f th) := by
  intro ths
  induction ths with
  | nil =>
    intro acc
    refine ⟨[], [], by simp [selectPure], ?_, by simp⟩
    intro u hu
    have : u = acc := by simpa [selectPure] using hu
    simp [selectPure, this]
  | cons th ths ih =>
    intro acc
    by_cases hle : f th ≤ f acc
    · obtain ⟨l₁, l₂, hdecomp, hmin, hstrict⟩ := ih th
      have hsel : selectPure f acc (th :: ths) = selectPure f th ths := by
        unfold selectPure
        rw [List.foldl_cons, if_pos hle]
      refine ⟨acc :: l₁, l₂, ?_, ?_, ?_⟩
      · rw [hsel, List.cons_append, ← hdecomp]
      · intro u hu
        rw [hsel]
        rcases List.mem_cons.mp hu with rfl | hu'
        · exact le_trans (hmin th (by simp)) hle
        · exact hmin u hu'
      · intro u hu
        rw [hsel]
        exact hstrict u hu
    · obtain ⟨l₁, l₂, hdecomp, hmin, hstrict⟩ := ih acc
      have hlt : f acc < f th := not_le.mp hle
      have hsel : selectPure f acc (th :: ths) = selectPure f acc ths := by
        unfold selectPure
        rw [List.foldl_cons, if_neg hle]
      cases l₁ with
      | nil =>
        obtain ⟨hr, hl2⟩ := List.cons_eq_cons.mp hdecomp
        have hminA : ∀ v ∈ acc :: ths, f acc ≤ f v := by
          intro v hv
          rw [hr]
          exact hmin v hv
        have hstrictA : ∀ v ∈ l₂, f acc < f v := by
          intro v hv
          rw [hr]
          exact hstrict v hv
        refine ⟨[], th :: ths, ?_, ?_, ?_⟩
        · rw [hsel, ← hr]
          rfl
        · intro u hu
          rw [hsel, ← hr]
          rcases List.mem_cons.mp hu with rfl | hu'
          · exact le_refl _
          · rcases List.mem_cons.mp hu' with rfl | hu''
            · exact le_of_lt hlt
            · exact hminA u (List.mem_cons_of_mem acc hu'')
        · intro u hu
          rw [hsel, ← hr]
          rcases List.mem_cons.mp hu with rfl | hu'
          · exact hlt
          · exact hstrictA u (hl2 ▸ hu')
      | cons a l₁ =>
        obtain ⟨ha, hths⟩ := List.cons_eq_cons.mp hdecomp
        refine ⟨acc :: th :: l₁, l₂, ?_, ?_, ?_⟩
        · rw [hsel]
          exact congrArg (fun l => acc :: th :: l) hths
        · intro u hu
          rw [hsel]
          rcases List.mem_cons.mp hu with rfl | hu'
          · exact hmin u (List.mem_cons_self u ths)
          · rcases List.mem_cons.mp hu' with rfl | hu''
            · exact le_of_lt
                (lt_of_le_of_lt (hmin acc (List.mem_cons_self acc ths)) hlt)
            · exact hmin u (List.mem_cons_of_mem acc hu'')
        · intro u hu
          rw [hsel]
          exact hstrict u hu

/-- C4: for every non-empty candidate list, model_selection sweeps the
thresholds in the order given, scoring each threshold with the BIC of its
fit (for any fit outcome fitOracle and any logarithm, getBic is the formula
log(n_samples) * dof + n_samples * log(mse / var(y))), and the final
self.threshold — the value modelSelection returns — occurs in the list,
has a BIC at most that of every candidate, and every candidate after its
occurrence scores strictly worse: an exact BIC tie is won by the later
threshold in sweep order. -/
theorem modelSelection_picks_last_min (lg : ℚ → ℚ) (fitOracle : ℚ → FitModel)
    (x y : List ℚ) (ths : List ℚ) (h : ths ≠ []) :
    ∃ l₁ l₂,
      ths = l₁ ++
        modelSelection (fun th => getBic lg (fitOracle th) x y) ths :: l₂ ∧
      (∀ th ∈ ths,
        getBic lg
          (fitOracle
            (modelSelection (fun u => getBic lg (fitOracle u) x y) ths))
          x y ≤ getBic lg (fitOracle th) x y) ∧
      (∀ th ∈ l₂,
        getBic lg
          (fitOracle
            (modelSelection (fun u => getBic lg (fitOracle u) x y) ths))
          x y < getBic lg (fitOracle th) x y) := by
  set f := fun th => getBic lg (fitOracle th) x y with hf
  obtain ⟨a, ths', rfl⟩ := List.exists_cons_of_ne_nil h
  have h1 : selectStep f (0, (⊤ : WithTop ℚ)) a = (a, (f a : WithTop ℚ)) := by
    unfold selectStep
    simp
  have hms : modelSelection f (a :: ths') = selectPure f a ths' := by
    unfold modelSelection
    rw [List.foldl_cons, h1, selectBest_eq_pure]
  rw [hms]
  exact selectPure_lastMin f ths' a

/-- Witness for C4: the sweep over the non-empty candidate list [0, 1] with
a trivial fit oracle satisfies the last-minimizer characterization. -/
theorem modelSelection_picks_last_min_witness :
    ([0, 1] : List ℚ) ≠ [] ∧
    (∃ l₁ l₂,
      ([0, 1] : List ℚ) = l₁ ++
        modelSelection
          (fun th => getBic id ((fun _ => ⟨[], fun _ => []⟩ : ℚ → FitModel) th)
            [] []) [0, 1] :: l₂ ∧
      (∀ th ∈ ([0, 1] : List ℚ),
        getBic id
          ((fun _ => ⟨[], fun _ => []⟩ : ℚ → FitModel)
            (modelSelection
              (fun u => getBic id
                ((fun _ => ⟨[], fun _ => []⟩ : ℚ → FitModel) u) [] []) [0, 1]))
          [] [] ≤
          getBic id ((fun _ => ⟨[], fun _ => []⟩ : ℚ → FitModel) th) [] []) ∧
      (∀ th ∈ l₂,
        getBic id
          ((fun _ => ⟨[], fun _ => []⟩ : ℚ → FitModel)
            (modelSelection
              (fun u => getBic id
                ((fun _ => ⟨[], fun _ => []⟩ : ℚ → FitModel) u) [] []) [0, 1]))
          [] [] <
          getBic id ((fun _ => ⟨[], fun _ => []⟩ : ℚ → FitModel) th) [] [])) :=
  ⟨by simp,
    modelSelection_picks_last_min id (fun _ => ⟨[], fun _ => []⟩) [] [] [0, 1]
      (by simp)⟩

/-! ### The 1D pipeline and its binning -/

theorem pyAppendFold_eq_map {α : Type} (f : ℚ → α) (op : List ℚ) :
    pyAppendFold f op = op.map f := by
  have h : ∀ (l : List ℚ) (init : List α),
      l.foldl (fun acc b => acc ++ [f b]) init = init ++ l.map f := by
    intro l
    induction l with
    | nil => intro init; simp
    | cons b bs ih => intro init; simp [List.foldl_cons, ih]
  simpa using h op []

theorem dd_avgdiff (tf : TuneAndFit1D) (bins : ℕ) (r : Option (List ℚ))
    (X : List ℚ) (t : ℚ) (Dt dt : ℕ) (inc : ℚ) :
    (driftAndDiffusion tf bins r X t Dt dt inc).avgdiff =
      (orderParameter bins X inc r).map (fun b =>
        npMean (binSelect (npTakeNeg X (max Dt dt))
          (diffusionFromResidual X (tf (npTakeNeg X Dt) (driftArr X t Dt)) t dt)
          b inc)) :=
  pyAppendFold_eq_map _ _

theorem dd_avgdrift (tf : TuneAndFit1D) (bins : ℕ) (r : Option (List ℚ))
    (X : List ℚ) (t : ℚ) (Dt dt : ℕ) (inc : ℚ) :
    (driftAndDiffusion tf bins r X t Dt dt inc).avgdrift =
      (orderParameter bins X inc r).map (fun b =>
        npMean (binSelect (npTakeNeg X (max Dt dt)) (driftArr X t Dt) b inc)) :=
  pyAppendFold_eq_map _ _

theorem dd_drift_ebar (tf : TuneAndFit1D) (bins : ℕ) (r : Option (List ℚ))
    (X : List ℚ) (t : ℚ) (Dt dt : ℕ) (inc : ℚ) :
    (driftAndDiffusion tf bins r X t Dt dt inc).drift_ebar =
      (orderParameter bins X inc r).map (fun b =>
        npEbarSq (binSelect (npTakeNeg X (max Dt dt)) (driftArr X t Dt) b inc)) :=
  pyAppendFold_eq_map _ _

theorem dd_diff_ebar (tf : TuneAndFit1D) (bins : ℕ) (r : Option (List ℚ))
    (X : List ℚ) (t : ℚ) (Dt dt : ℕ) (inc : ℚ) :
    (driftAndDiffusion tf bins r X t Dt dt inc).diff_ebar =
      (orderParameter bins X inc r).map (fun b =>
        npEbarSq (binSelect (npTakeNeg X (max Dt dt))
          (diffusionFromResidual X (tf (npTakeNeg X Dt) (driftArr X t Dt)) t dt)
          b inc)) :=
  pyAppendFold_eq_map _ _

theorem dd_drift_num (tf : TuneAndFit1D) (bins : ℕ) (r : Option (List ℚ))
    (X : List ℚ) (t : ℚ) (Dt dt : ℕ) (inc : ℚ) :
    (driftAndDiffusion tf bins r X t Dt dt inc).drift_num =
      (orderParameter bins X inc r).map (fun b =>
        (binSelect (npTakeNeg X (max Dt dt)) (driftArr X t Dt) b inc).length) :=
  pyAppendFold_eq_map _ _

theorem dd_diff_num (tf : TuneAndFit1D) (bins : ℕ) (r : Option (List ℚ))
    (X : List ℚ) (t : ℚ) (Dt dt : ℕ) (inc : ℚ) :
    (driftAndDiffusion tf bins r X t Dt dt inc).diff_num =
      (orderParameter bins X inc r).map (fun b =>
        (binSelect (npTakeNeg X (max Dt dt))
          (diffusionFromResidual X (tf (npTakeNeg X Dt) (driftArr X t Dt)) t dt)
          b inc).length) :=
  pyAppendFold_eq_map _ _

theorem binSelect_eq_nil (X vals : List ℚ) (b inc : ℚ)
    (h : ∀ v ∈ X, ¬(b ≤ v ∧ v < b + inc)) : binSelect X vals b inc = [] := by
  unfold binSelect
  have hfil : (X.zip vals).filter
      (fun p => decide (b ≤ p.1 ∧ p.1 < b + inc)) = [] := by
    rw [List.filter_eq_nil_iff]
    intro p hp
    have hmem : p.1 ∈ X := (List.of_mem_zip hp).1
    simpa using h p.1 hmem
  rw [hfil]
  rfl

theorem linspace_length (a b : ℚ) (n : ℕ) : (linspace a b n).length = n := by
  unfold linspace
  rw [List.length_map, List.length_range]

theorem linspace5_head (a b : ℚ) : (linspace a b 5).head?.getD 0 = a := by
  norm_num [linspace, List.range_succ]

theorem linspace5_last (a b : ℚ) : (linspace a b 5).getLast?.getD 0 = b := by
  norm_num [linspace, List.range_succ]

/-- The order-parameter axis of the linspace branch, after the range
normalization of sde.py lines 217 to 220. -/
theorem orderParameter_bins5_ends (X : List ℚ) (inc : ℚ)
    (r : Option (List ℚ)) :
    (orderParameter 5 X inc r).length = 5 ∧
    (isValidRange r = false →
      (orderParameter 5 X inc r).headD 0 = listMin X ∧
      (orderParameter 5 X inc r).getLastD 0 = listMax X) ∧
    (∀ l, r = some l → l.length = 2 →
      (orderParameter 5 X inc r).headD 0 = l.headD 0 ∧
      (orderParameter 5 X inc r).getLastD 0 = l.getLastD 0) := by
  refine ⟨?_, ?_, ?_⟩
  · unfold orderParameter
    cases r with
    | none => simp [linspace_length]
    | some l =>
      by_cases hl : l.length = 2 <;> simp [hl, linspace_length]
  · intro hinv
    cases r with
    | none =>
      unfold orderParameter
      simp [linspace5_head, linspace5_last]
    | some l =>
      have hl : l.length ≠ 2 := by
        simpa [isValidRange] using hinv
      unfold orderParameter
      simp [hl, linspace5_head, linspace5_last]
  · intro l hr hl
    subst hr
    unfold orderParameter
    simp [hl, linspace5_head, linspace5_last]

/-- C3: SDE._drift_and_diffusion computes the raw drift, fits the 1D model
F to it, computes the residual diffusion about F, fits the 1D model G to
that diffusion, bins the raw drift and the raw diffusion into the
order-parameter bins with per-bin mean, squared standard error
(std/sqrt(count) squared, i.e. variance/count) and sample count, and
returns the raw arrays, the six binned lists, the order-parameter axis and
both fitted models. -/
theorem driftAndDiffusion_pipeline (tf : TuneAndFit1D) (bins : ℕ)
    (r : Option (List ℚ)) (X : List ℚ) (t : ℚ) (Dt dt : ℕ) (inc : ℚ) :
    (driftAndDiffusion tf bins r X t Dt dt inc).drift = driftArr X t Dt ∧
    (driftAndDiffusion tf bins r X t Dt dt inc).F =
      tf (npTakeNeg X Dt) (driftArr X t Dt) ∧
    (driftAndDiffusion tf bins r X t Dt dt inc).diff =
      diffusionFromResidual X (tf (npTakeNeg X Dt) (driftArr X t Dt)) t dt ∧
    (driftAndDiffusion tf bins r X t Dt dt inc).G =
      tf (npTakeNeg X dt)
        (diffusionFromResidual X (tf (npTakeNeg X Dt) (driftArr X t Dt)) t dt) ∧
    (driftAndDiffusion tf bins r X t Dt dt inc).op =
      orderParameter bins X inc r ∧
    (driftAndDiffusion tf bins r X t Dt dt inc).avgdrift =
      (orderParameter bins X inc r).map (fun b =>
        npMean (binSelect (npTakeNeg X (max Dt dt)) (driftArr X t Dt) b inc)) ∧
    (driftAndDiffusion tf bins r X t Dt dt inc).avgdiff =
      (orderParameter bins X inc r).map (fun b =>
        npMean (binSelect (npTakeNeg X (max Dt dt))
          (diffusionFromResidual X (tf (npTakeNeg X Dt) (driftArr X t Dt)) t dt)
          b inc)) ∧
    (driftAndDiffusion tf bins r X t Dt dt inc).drift_ebar =
      (orderParameter bins X inc r).map (fun b =>
        npEbarSq (binSelect (npTakeNeg X (max Dt dt)) (driftArr X t Dt) b inc)) ∧
    (driftAndDiffusion tf bins r X t Dt dt inc).diff_ebar =
      (orderParameter bins X inc r).map (fun b =>
        npEbarSq (binSelect (npTakeNeg X (max Dt dt))
          (diffusionFromResidual X (tf (npTakeNeg X Dt) (driftArr X t Dt)) t dt)
          b inc)) ∧
    (driftAndDiffusion tf bins r X t Dt dt inc).drift_num =
      (orderParameter bins X inc r).map (fun b =>
        (binSelect (npTakeNeg X (max Dt dt)) (driftArr X t Dt) b inc).length) ∧
    (driftAndDiffusion tf bins r X t Dt dt inc).diff_num =
      (orderParameter bins X inc r).map (fun b =>
        (binSelect (npTakeNeg X (max Dt dt))
          (diffusionFromResidual X (tf (npTakeNeg X Dt) (driftArr X t Dt)) t dt)
          b inc).length) :=
  ⟨rfl, rfl, rfl, rfl, rfl,
    dd_avgdrift tf bins r X t Dt dt inc, dd_avgdiff tf bins r X t Dt dt inc,
    dd_drift_ebar tf bins r X t Dt dt inc, dd_diff_ebar tf bins r X t Dt dt inc,
    dd_drift_num tf bins r X t Dt dt inc, dd_diff_num tf bins r X t Dt dt inc⟩

/-- C7: with bins = 5 the order-parameter axis has exactly 5 values; a range
override is honoured only when it is a 2-element sequence and the empirical
min and max of the data are used otherwise; and in the binned 1D outputs a
bin containing no samples reports a NaN mean and a NaN standard error with
sample count 0 (no exception is raised: every output is a total value). -/
theorem orderParameter_bins5_empty_bins (tf : TuneAndFit1D)
    (r : Option (List ℚ)) (X : List ℚ) (t : ℚ) (Dt dt : ℕ) (inc : ℚ)
    (hX : X ≠ []) :
    (orderParameter 5 X inc r).length = 5 ∧
    (isValidRange r = false →
      (orderParameter 5 X inc r).headD 0 = listMin X ∧
      (orderParameter 5 X inc r).getLastD 0 = listMax X) ∧
    (∀ l, r = some l → l.length = 2 →
      (orderParameter 5 X inc r).headD 0 = l.headD 0 ∧
      (orderParameter 5 X inc r).getLastD 0 = l.getLastD 0) ∧
    (∀ j b, (orderParameter 5 X inc r).get? j = some b →
      (∀ v ∈ npTakeNeg X (max Dt dt), ¬(b ≤ v ∧ v < b + inc)) →
      (driftAndDiffusion tf 5 r X t Dt dt inc).avgdrift.get? j = some none ∧
      (driftAndDiffusion tf 5 r X t Dt dt inc).avgdiff.get? j = some none ∧
      (driftAndDiffusion tf 5 r X t Dt dt inc).drift_ebar.get? j = some none ∧
      (driftAndDiffusion tf 5 r X t Dt dt inc).diff_ebar.get? j = some none ∧
      (driftAndDiffusion tf 5 r X t Dt dt inc).drift_num.get? j = some 0 ∧
      (driftAndDiffusion tf 5 r X t Dt dt inc).diff_num.get? j = some 0) := by
  obtain ⟨hlen, hinvalid, hvalid⟩ := orderParameter_bins5_ends X inc r
  refine ⟨hlen, hinvalid, hvalid, ?_⟩
  intro j b hj hempty
  have hdrift : binSelect (npTakeNeg X (max Dt dt)) (driftArr X t Dt) b inc
      = [] := binSelect_eq_nil _ _ _ _ hempty
  have hdiff : binSelect (npTakeNeg X (max Dt dt))
      (diffusionFromResidual X (tf (npTakeNeg X Dt) (driftArr X t Dt)) t dt)
      b inc = [] := binSelect_eq_nil _ _ _ _ hempty
  refine ⟨?_, ?_, ?_, ?_, ?_, ?_⟩
  · rw [dd_avgdrift, List.get?_map, hj, Option.map_some', hdrift]
    rfl
  · rw [dd_avgdiff, List.get?_map, hj, Option.map_some', hdiff]
    rfl
  · rw [dd_drift_ebar, List.get?_map, hj, Option.map_some', hdrift]
    rfl
  · rw [dd_diff_ebar, List.get?_map, hj, Option.map_some', hdiff]
    rfl
  · rw [dd_drift_num, List.get?_map, hj, Option.map_some', hdrift]
    rfl
  · rw [dd_diff_num, List.get?_map, hj, Option.map_some', hdiff]
    rfl

/-- Witness for C7: the series [0, 10, 0, 10, 0, 10] with no range override,
five bins and increment 5/2 has a five-point axis from 0 to 10, and the bin
at 5 holds no samples, so its mean and standard error are NaN and its count
is 0. -/
theorem orderParameter_bins5_empty_bins_witness :
    ([0, 10, 0, 10, 0, 10] : List ℚ) ≠ [] ∧
    ((orderParameter 5 [0, 10, 0, 10, 0, 10] (5 / 2) none).length = 5 ∧
    (isValidRange none = false →
      (orderParameter 5 [0, 10, 0, 10, 0, 10] (5 / 2) none).headD 0 =
        listMin [0, 10, 0, 10, 0, 10] ∧
      (orderParameter 5 [0, 10, 0, 10, 0, 10] (5 / 2) none).getLastD 0 =
        listMax [0, 10, 0, 10, 0, 10]) ∧
    (∀ l : List ℚ, (none : Option (List ℚ)) = some l → l.length = 2 →
      (orderParameter 5 [0, 10, 0, 10, 0, 10] (5 / 2) none).headD 0 =
        l.headD 0 ∧
      (orderParameter 5 [0, 10, 0, 10, 0, 10] (5 / 2) none).getLastD 0 =
        l.getLastD 0) ∧
    (∀ j b,
      (orderParameter 5 [0, 10, 0, 10, 0, 10] (5 / 2) none).get? j = some b →
      (∀ v ∈ npTakeNeg [0, 10, 0, 10, 0, 10] (max 1 1),
        ¬(b ≤ v ∧ v < b + 5 / 2)) →
      (driftAndDiffusion (fun _ _ _ => (0 : ℚ)) 5 none [0, 10, 0, 10, 0, 10]
        1 1 1 (5 / 2)).avgdrift.get? j = some none ∧
      (driftAndDiffusion (fun _ _ _ => (0 : ℚ)) 5 none [0, 10, 0, 10, 0, 10]
        1 1 1 (5 / 2)).avgdiff.get? j = some none ∧
      (driftAndDiffusion (fun _ _ _ => (0 : ℚ)) 5 none [0, 10, 0, 10, 0, 10]
        1 1 1 (5 / 2)).drift_ebar.get? j = some none ∧
      (driftAndDiffusion (fun _ _ _ => (0 : ℚ)) 5 none [0, 10, 0, 10, 0, 10]
        1 1 1 (5 / 2)).diff_ebar.get? j = some none ∧
      (driftAndDiffusion (fun _ _ _ => (0 : ℚ)) 5 none [0, 10, 0, 10, 0, 10]
        1 1 1 (5 / 2)).drift_num.get? j = some 0 ∧
      (driftAndDiffusion (fun _ _ _ => (0 : ℚ)) 5 none [0, 10, 0, 10, 0, 10]
        1 1 1 (5 / 2)).diff_num.get? j = some 0)) :=
  ⟨by simp,
    orderParameter_bins5_empty_bins (fun _ _ _ => (0 : ℚ)) none
      [0, 10, 0, 10, 0, 10] 1 1 1 (5 / 2) (by simp)⟩

/-! ### Array evaluation of Poly2D -/

theorem zipWith_map_same {α β γ δ : Type} (f : β → γ → δ) (g : α → β)
    (h : α → γ) (l : List α) :
    List.zipWith f (l.map g) (l.map h) = l.map (fun a => f (g a) (h a)) := by
  induction l with
  | nil => rfl
  | cons a l ih => simp [ih]

theorem poly2DTerms_cons (d : ℕ) (x y : ℚ) (xs ys : List ℚ) :
    poly2DTerms d (x :: xs) (y :: ys) =
      List.zipWith List.cons (monomials d x y) (poly2DTerms d xs ys) := by
  unfold poly2DTerms monomials
  rw [zipWith_map_same]
  rfl

theorem mnPairs_length (d : ℕ) : (mnPairs d).length = (d + 1) ^ 2 := by
  unfold mnPairs
  rw [List.length_flatMap, pow_two]
  simp only [Function.comp_def, List.length_map, List.length_range]
  rw [List.map_const', List.length_range, List.sum_replicate, smul_eq_mul]

theorem monomials_length (d : ℕ) (x y : ℚ) :
    (monomials d x y).length = (d + 1) ^ 2 := by
  unfold monomials
  rw [List.length_map, mnPairs_length]

theorem poly2DTerms_length (d : ℕ) (xs ys : List ℚ) :
    (poly2DTerms d xs ys).length = (d + 1) ^ 2 := by
  unfold poly2DTerms
  rw [List.length_map, mnPairs_length]

theorem mnPairs_cons (d : ℕ) : ∃ rest, mnPairs d = (0, 0) :: rest := by
  unfold mnPairs
  rw [List.range_succ_eq_map, List.flatMap_cons, List.map_cons,
    List.cons_append]
  exact ⟨_, rfl⟩

theorem poly2DTerms_head_length (d : ℕ) (xs ys : List ℚ)
    (h : xs.length = ys.length) :
    ((poly2DTerms d xs ys).headD []).length = xs.length := by
  obtain ⟨rest, hmn⟩ := mnPairs_cons d
  unfold poly2DTerms
  rw [hmn]
  simp [h]

theorem scale_nil_rows_sum : ∀ (c : List ℚ) (L : List (ℕ × ℕ)),
    ((List.zipWith (fun (ci : ℚ) (row : List ℚ) => row.map (fun v => ci * v))
      c (L.map (fun _ => ([] : List ℚ)))).map List.sum).sum = 0 := by
  intro c
  induction c with
  | nil => intro L; simp
  | cons a c ih =>
    intro L
    cases L with
    | nil => simp
    | cons p L => simpa using ih L

theorem scale_cons_rows_sum :
    ∀ (c v : List ℚ) (t : List (List ℚ)), c.length = v.length →
      v.length = t.length →
      ((List.zipWith (fun (ci : ℚ) (row : List ℚ) => row.map (fun w => ci * w))
          c (List.zipWith List.cons v t)).map List.sum).sum =
        (List.zipWith (fun a b => a * b) c v).sum +
          ((List.zipWith
            (fun (ci : ℚ) (row : List ℚ) => row.map (fun w => ci * w))
            c t).map List.sum).sum := by
  intro c
  induction c with
  | nil => intro v t _ _; simp
  | cons a c ih =>
    intro v t hcv hvt
    cases v with
    | nil => simp at hcv
    | cons m v =>
      cases t with
      | nil => simp at hvt
      | cons r t =>
        have h1 : c.length = v.length := by simpa using hcv
        have h2 : v.length = t.length := by simpa using hvt
        simp only [List.zipWith_cons_cons, List.map_cons, List.sum_cons,
          List.map_map]
        rw [ih v t h1 h2]
        ring

theorem poly2DCallArr_fallback_sum (d : ℕ) (c : List ℚ) :
    ∀ (xs ys : List ℚ), xs.length = ys.length → c.length = (d + 1) ^ 2 →
      ((List.zipWith (fun (ci : ℚ) (row : List ℚ) => row.map (fun w => ci * w))
          c (poly2DTerms d xs ys)).map List.sum).sum =
        ((xs.zip ys).map (fun q => poly2DEvalScalar c d q.1 q.2)).sum := by
  intro xs
  induction xs with
  | nil =>
    intro ys h _
    have hys : ys = [] := by
      cases ys with
      | nil => rfl
      | cons y ys => simp at h
    subst hys
    have hT : poly2DTerms d [] [] = (mnPairs d).map (fun _ => ([] : List ℚ)) :=
      rfl
    rw [hT, scale_nil_rows_sum]
    simp
  | cons x xs ih =>
    intro ys h hc
    cases ys with
    | nil => simp at h
    | cons y ys =>
      have h' : xs.length = ys.length := by simpa using h
      rw [poly2DTerms_cons,
        scale_cons_rows_sum c (monomials d x y) (poly2DTerms d xs ys)
          (by rw [monomials_length, hc])
          (by rw [monomials_length, poly2DTerms_length]),
        ih ys h' hc]
      simp [poly2DEvalScalar]

/-- C5 (amended): Poly2D evaluation supports scalar and array inputs; on
a pair of equal-length arrays of n points whose term matrix is
shape-incompatible with the coefficient vector for a direct elementwise
product (n is neither 1 nor the dictionary size), the coefficients broadcast
along a new trailing axis and the call returns the single scalar sum of the
model values over all n points — not an n-element per-point result. -/
theorem poly2DCallArr_sums_points (c : List ℚ) (d : ℕ) (xs ys : List ℚ)
    (hxy : xs.length = ys.length) (hc : c.length = (d + 1) ^ 2)
    (hincompat : ¬(c.length = xs.length ∨ c.length = 1 ∨ xs.length = 1)) :
    poly2DCallArr c d xs ys =
      ((xs.zip ys).map (fun q => poly2DEvalScalar c d q.1 q.2)).sum := by
  have hn : ((poly2DTerms d xs ys).headD []).length = xs.length :=
    poly2DTerms_head_length d xs ys hxy
  have hnone : npMulVecMat c (poly2DTerms d xs ys) = none := by
    unfold npMulVecMat
    rw [hn, if_neg hincompat]
  simp only [poly2DCallArr, hnone]
  exact poly2DCallArr_fallback_sum d c xs ys hxy hc

/-- Witness for C5 (amended): the constant-one model of degree 1 on the two
points (0, 0) and (5, 7): four coefficients against two points is
shape-incompatible, and the call returns 1 + 1 = 2, the sum of the model
values at the two points. -/
theorem poly2DCallArr_sums_points_witness :
    ([0, 5] : List ℚ).length = ([0, 7] : List ℚ).length ∧
    ([1, 0, 0, 0] : List ℚ).length = (1 + 1) ^ 2 ∧
    ¬(([1, 0, 0, 0] : List ℚ).length = ([0, 5] : List ℚ).length ∨
      ([1, 0, 0, 0] : List ℚ).length = 1 ∨ ([0, 5] : List ℚ).length = 1) ∧
    poly2DCallArr [1, 0, 0, 0] 1 [0, 5] [0, 7] =
      ((([0, 5] : List ℚ).zip ([0, 7] : List ℚ)).map
        (fun q => poly2DEvalScalar [1, 0, 0, 0] 1 q.1 q.2)).sum :=
  ⟨by decide, by decide, by decide,
    poly2DCallArr_sums_points [1, 0, 0, 0] 1 [0, 5] [0, 7] (by decide)
      (by decide) (by decide)⟩

/-- C8: Poly2D construction fails with the invalid-shape assertion exactly
when the coefficient count differs from (degree + 1) ^ 2, and succeeds
otherwise. -/
theorem poly2DMk_shape_iff (c : List ℚ) (d : ℕ) :
    ((poly2DMk c d).isSome ↔ c.length = (d + 1) ^ 2) ∧
    (poly2DMk c d = none ↔ c.length ≠ (d + 1) ^ 2) := by
  unfold poly2DMk
  split
  · simp_all
  · simp_all

/-- C9: the 2D model with coefficients [0, 1, 0, 2] and degree 1 evaluates
at (x = 2, y = 3) to 15; the coefficient indices follow the row-major (m, n)
enumeration (0,0), (0,1), (1,0), (1,1), so the model is 1 * y + 2 * x * y. -/
theorem poly2D_roundtrip_eval :
    poly2DMk [0, 1, 0, 2] 1 = some ⟨[0, 1, 0, 2], 1⟩ ∧
    mnPairs 1 = [(0, 0), (0, 1), (1, 0), (1, 1)] ∧
    poly2DEvalScalar [0, 1, 0, 2] 1 2 3 = 15 := by
  refine ⟨by norm_num [poly2DMk], by decide, ?_⟩
  norm_num [poly2DEvalScalar, monomials, mnPairs, List.range_succ]

/-- C10: SDE.__call__ passes the four positional arguments (X, t_int, Dt,
inc) to SDE._drift_and_diffusion, which requires five; the inc value is
bound to the dt parameter and the required inc parameter is left unbound,
so the call raises a missing-argument TypeError for every input instead of
returning the drift and diffusion bundle. -/
theorem sdeCall_missing_inc {α : Type} (X t Dt inc : α) :
    sdeCallBind X t Dt inc = BindResult.missingArgs ["inc"] ∧
    bindPositional (ddParams.take 4) [X, t, Dt, inc] =
      BindResult.ok [("X", X), ("t_int", t), ("Dt", Dt), ("dt", inc)] :=
  ⟨rfl, rfl⟩

/-- C2 (failing input): with data x = [0, 1, 2], y = [0, 2, 4], t_int = 1,
Dt = dt = 1 and the constant-model oracle, the fitted models are A1 = 1 and
A2 = 2; sde.py line 332 passes A1 to _diffusion_y_from_residual, so the
code computes the y-channel residual diffusion [1, 1], while the A2 the
claim requires would give [0, 0]. -/
theorem vddDiffusionY_usesA1 :
    vddDiffusionY tfConst [0, 1, 2] [0, 2, 4] 1 1 1 = [1, 1] ∧
    diffusionYFromResidual [0, 1, 2] [0, 2, 4]
      (vddA2 tfConst [0, 1, 2] [0, 2, 4] 1 1) 1 1 = [0, 0] ∧
    ([1, 1] : List ℚ) ≠ [0, 0] := by
  refine ⟨?_, ?_, by simp⟩
  · norm_num [vddDiffusionY, diffusionYFromResidual, vddA1, vddState, driftArr,
      npTakeNeg, tfConst]
  · norm_num [diffusionYFromResidual, vddA2, vddState, driftArr, npTakeNeg,
      tfConst]

/-- C5 (counterexample): the constant-one model of degree 1 called on the
two points (0, 0) and (5, 7) returns the single scalar 2, the sum over the
two points, and that return value is not the value of the model at either
point — so array evaluation does not yield an n-element per-point result. -/
theorem poly2DCallArr_not_pointwise :
    poly2DCallArr [1, 0, 0, 0] 1 [0, 5] [0, 7] = 2 ∧
    poly2DEvalScalar [1, 0, 0, 0] 1 0 0 = 1 ∧
    poly2DEvalScalar [1, 0, 0, 0] 1 5 7 = 1 ∧
    poly2DCallArr [1, 0, 0, 0] 1 [0, 5] [0, 7] ≠
      poly2DEvalScalar [1, 0, 0, 0] 1 0 0 ∧
    poly2DCallArr [1, 0, 0, 0] 1 [0, 5] [0, 7] ≠
      poly2DEvalScalar [1, 0, 0, 0] 1 5 7 := by
  have h1 : poly2DCallArr [1, 0, 0, 0] 1 [0, 5] [0, 7] = 2 := by
    norm_num [poly2DCallArr, poly2DTerms, npMulVecMat, mnPairs, List.range_succ]
  have h2 : poly2DEvalScalar [1, 0, 0, 0] 1 0 0 = 1 := by
    norm_num [poly2DEvalScalar, monomials, mnPairs, List.range_succ]
  have h3 : poly2DEvalScalar [1, 0, 0, 0] 1 5 7 = 1 := by
    norm_num [poly2DEvalScalar, monomials, mnPairs, List.range_succ]
  refine ⟨h1, h2, h3, ?_, ?_⟩
  · rw [h1, h2]; norm_num
  · rw [h1, h3]; norm_num

end Pyddsde
